import Mathlib

/-!
Verification of the HTML-to-PDF-element streaming transducer and the batch
drivers of the md-to-pdf-converter repository.

The transducer lives in `MarkdownToPDFConverter.parse_markdown_to_elements`
of `src/md_to_pdf_converter_windows.py`: after the external `markdown2`
library turns Markdown into an HTML string, the method splits the HTML on
newline characters and classifies each line by its leading tag, emitting
reportlab flow elements (Paragraph / Preformatted / Table / Spacer).

Lines are modelled as lists of characters (`Line`), elements as the
inductive `Element`.  Python's `str.strip` is `pyStrip`, the tag-removing
regex substitution `re.sub('<.*?>', '', text)` is `cleanHtmlTags`,
`re.findall('<t[hd]>(.*?)</t[hd]>', row)` is `findCells`, and the three
multi-line capture loops (code block, blockquote, table) are
`scanCodeList`, `scanQuoteList` and `scanTableList` acting on the suffix
of the line list after the opening line.  `stepAt` is one iteration of the
outer `while i < len(lines)` loop: it returns the emitted elements and the
next value of the loop index `i`.

The two command-line drivers (`main` of `src/md_to_pdf_converter.py` and
`main` of `src/md_to_pdf_converter_windows.py`) are modelled in the
namespaces `PipelineA` and `PipelineB`, with the per-file filesystem facts
and the outcome of a conversion attempt abstracted into `InputFile`.
-/

/-- An HTML line, as a list of characters. -/
abbrev Line := List Char

/-- Convenience conversion from a string literal to a `Line`. -/
def strToL (s : String) : Line := s.toList

/-- Whitespace characters recognised by Python's `str.strip()`
(restricted to the ASCII range, which is all that can occur here). -/
def isSpaceChar (c : Char) : Bool :=
  c = ' ' || c = '\t' || c = '\n' || c = '\r' || c = '\x0b' || c = '\x0c'

/-- Python's `str.strip()`: drop whitespace from both ends. -/
def pyStrip (l : Line) : Line :=
  ((l.dropWhile isSpaceChar).reverse.dropWhile isSpaceChar).reverse

/-- State machine for `re.sub('<.*?>', '', text)` (`clean_html_tags` in the
source).  The second argument is `none` outside a candidate tag and
`some buf` while scanning for the `>` that closes a `<` (with `buf` holding
the candidate's characters in reverse).  A `<` with no later `>` on the
same line matches nothing and is kept; `.` in the pattern does not match a
newline, so a newline aborts the candidate. -/
def cleanAux : Line → Option Line → Line
  | [], none => []
  | [], some buf => buf.reverse
  | c :: cs, none =>
    if c = '<' then cleanAux cs (some [c])
    else c :: cleanAux cs none
  | c :: cs, some buf =>
    if c = '>' then cleanAux cs none
    else if c = '\n' then buf.reverse ++ c :: cleanAux cs none
    else cleanAux cs (some (c :: buf))

/-- Python `re.sub('<.*?>', '', text)`: remove every non-greedy `<...>`
span (the `clean_html_tags` method of the source). -/
def cleanHtmlTags (l : Line) : Line := cleanAux l none

/-- Python `str.split('\n')`: always returns at least one (possibly empty)
piece, and a trailing separator yields a trailing empty piece. -/
def splitLines : Line → List Line
  | [] => [[]]
  | c :: cs =>
    if c = '\n' then [] :: splitLines cs
    else
      match splitLines cs with
      | [] => [[c]]
      | l :: ls => (c :: l) :: ls

/-- Python `sep.join(pieces)`. -/
def joinSep (sep : Line) : List Line → Line
  | [] => []
  | [x] => x
  | x :: xs => x ++ sep ++ joinSep sep xs

/-- The code-block opening marker `'<pre><code>'`. -/
def codeOpen : Line := strToL "<pre><code>"

/-- The code-block closing marker `'</code></pre>'`. -/
def codeClose : Line := strToL "</code></pre>"

/-- The blockquote opening marker `'<blockquote>'`. -/
def quoteOpen : Line := strToL "<blockquote>"

/-- The blockquote closing marker `'</blockquote>'`. -/
def quoteClose : Line := strToL "</blockquote>"

/-- The table opening marker `'<table>'`. -/
def tableOpen : Line := strToL "<table>"

/-- The table closing marker `'</table>'`. -/
def tableClose : Line := strToL "</table>"

/-- The table-row marker `'<tr>'`. -/
def trOpen : Line := strToL "<tr>"

/-- The heading opening tag `'<hN>'` for level `N` (the source tests the
six literals `'<h1>'` .. `'<h6>'`). -/
def hTag (lvl : Nat) : Line := ['<', 'h', Nat.digitChar lvl, '>']

/-- Does the line start with a cell-opening tag `<th>` or `<td>`? -/
def cellOpenAt (l : Line) : Bool :=
  (strToL "<th>").isPrefixOf l || (strToL "<td>").isPrefixOf l

/-- Does the line start with a cell-closing tag `</th>` or `</td>`? -/
def cellCloseAt (l : Line) : Bool :=
  (strToL "</th>").isPrefixOf l || (strToL "</td>").isPrefixOf l

/-- Bridge between the executable `List.isPrefixOf` and the prefix
relation. -/
theorem isPrefixOf_true_iff {p l : Line} : p.isPrefixOf l = true ↔ p <+: l :=
  List.isPrefixOf_iff_prefix

/-- Scan for the nearest cell-closing tag (`</th>` or `</td>`; the regex
class `[hd]` lets the closing letter differ from the opening one); return
the captured characters before it and the rest after it.  The non-greedy
`(.*?)` cannot cross a newline, so a newline makes the candidate fail. -/
def findCellEnd : Line → Option (Line × Line)
  | [] => none
  | c :: cs =>
    if cellCloseAt (c :: cs) then some ([], (c :: cs).drop 5)
    else if c = '\n' then none
    else
      match findCellEnd cs with
      | some (cap, rest) => some (c :: cap, rest)
      | none => none

theorem findCellEnd_length : ∀ {l cap rest : Line},
    findCellEnd l = some (cap, rest) → rest.length < l.length := by
  intro l
  induction l with
  | nil => intro cap rest h; simp [findCellEnd] at h
  | cons c cs ih =>
    intro cap rest h
    rw [findCellEnd] at h
    split at h
    · rename_i hclose
      have h5 : 5 ≤ (c :: cs).length := by
        rcases Bool.or_eq_true _ _ |>.mp hclose with hh | hh <;>
          exact le_trans (by decide)
            (List.IsPrefix.length_le (isPrefixOf_true_iff.mp hh))
      simp only [Option.some.injEq, Prod.mk.injEq] at h
      rw [← h.2]
      simp only [List.length_drop]
      omega
    · split at h
      · exact absurd h (by simp)
      · revert h
        match hfe : findCellEnd cs with
        | some (cap2, rest2) =>
          intro h
          simp only [Option.some.injEq, Prod.mk.injEq] at h
          have := ih hfe
          rw [← h.2]
          simp only [List.length_cons]
          omega
        | none => intro h; exact absurd h (by simp)

/-- Python `re.findall(r'<t[hd]>(.*?)</t[hd]>', row_line)`: the ordered
list of captured cell substrings. -/
def findCells : Line → List Line
  | [] => []
  | c :: cs =>
    if cellOpenAt (c :: cs) then
      match h : findCellEnd ((c :: cs).drop 4) with
      | some (cap, rest) => cap :: findCells rest
      | none => findCells cs
    else findCells cs
termination_by l => l.length
decreasing_by
  · have hlen := findCellEnd_length h
    simp only [List.length_drop, List.length_cons] at hlen
    simp only [List.length_cons]
    omega
  · simp
  · simp

/-- The cell texts of one table row: each regex capture with HTML tags
stripped (the `for cell in cells: row_data.append(...)` loop). -/
def rowCells (row : Line) : List Line := (findCells row).map cleanHtmlTags

/-- The multi-line code-block capture loop
`while i < len(lines) and not lines[i].strip().endswith('</code></pre>')`,
acting on the list of lines after the opening line: returns the raw lines
captured before the closing line and the number of lines consumed. -/
def scanCodeList : List Line → List Line × Nat
  | [] => ([], 0)
  | l :: ls =>
    if codeClose.isSuffixOf (pyStrip l) then ([], 0)
    else
      let r := scanCodeList ls
      (l :: r.1, r.2 + 1)

/-- The multi-line blockquote capture loop, which appends each captured
line tag-stripped (`quote_lines.append(self.clean_html_tags(lines[i]))`). -/
def scanQuoteList : List Line → List Line × Nat
  | [] => ([], 0)
  | l :: ls =>
    if quoteClose.isSuffixOf (pyStrip l) then ([], 0)
    else
      let r := scanQuoteList ls
      (cleanHtmlTags l :: r.1, r.2 + 1)

/-- The table-row collection loop
`while i < len(lines) and not lines[i].strip().startswith('</table>')`:
a row is appended only when the stripped line starts with `<tr>` and the
cell regex extracted at least one cell. -/
def scanTableList : List Line → List (List Line) × Nat
  | [] => ([], 0)
  | l :: ls =>
    if tableClose.isPrefixOf (pyStrip l) then ([], 0)
    else
      let r := scanTableList ls
      let row := pyStrip l
      let rows :=
        if trOpen.isPrefixOf row then
          let cells := rowCells row
          if cells.isEmpty then r.1 else cells :: r.1
        else r.1
      (rows, r.2 + 1)

/-- The reportlab paragraph styles the transducer selects from the
converter's style sheet. -/
inductive Style where
  | normal : Style
  | heading : Nat → Style
  | customCode : Style
  | customQuote : Style
deriving DecidableEq, Repr

/-- A reportlab flow element as emitted by the transducer. -/
inductive Element where
  | paragraph : Line → Style → Element
  | preformatted : Line → Style → Element
  | table : List (List Line) → Element
  | spacer : Nat → Nat → Element
deriving DecidableEq, Repr

/-- Is the element a vertical `Spacer`? -/
def isSpacer : Element → Bool
  | .spacer _ _ => true
  | _ => false

/-- The bullet glyph prefixed to list items (`f"• {text}"`). -/
def bulletPrefix : Line := strToL "• "

/-- One iteration of the outer `while i < len(lines)` loop of
`parse_markdown_to_elements`: classify the stripped current line, emit the
corresponding elements, and return the next value of the loop index.  The
branch order is exactly the source's `if`/`elif` chain (blank line,
headings `<h1>`..`<h6>`, code block, blockquote, table, paragraph, list
item, other content). -/
def stepAt (lines : List Line) (i : Nat) : List Element × Nat :=
  let line := pyStrip (lines.getD i [])
  if line.isEmpty then ([], i + 1)
  else if (hTag 1).isPrefixOf line then
    ([.paragraph (cleanHtmlTags line) (.heading 1), .spacer 1 12], i + 1)
  else if (hTag 2).isPrefixOf line then
    ([.paragraph (cleanHtmlTags line) (.heading 2), .spacer 1 10], i + 1)
  else if (hTag 3).isPrefixOf line then
    ([.paragraph (cleanHtmlTags line) (.heading 3), .spacer 1 8], i + 1)
  else if (hTag 4).isPrefixOf line then
    ([.paragraph (cleanHtmlTags line) (.heading 4), .spacer 1 6], i + 1)
  else if (hTag 5).isPrefixOf line then
    ([.paragraph (cleanHtmlTags line) (.heading 5), .spacer 1 4], i + 1)
  else if (hTag 6).isPrefixOf line then
    ([.paragraph (cleanHtmlTags line) (.heading 6), .spacer 1 4], i + 1)
  else if codeOpen.isPrefixOf line then
    if codeClose.isSuffixOf line then
      ([.preformatted (cleanHtmlTags line) .customCode, .spacer 1 12], i + 1)
    else
      let r := scanCodeList (lines.drop (i + 1))
      let j := i + 1 + r.2
      let codeLines := cleanHtmlTags line :: r.1 ++
        (if j < lines.length then [cleanHtmlTags (lines.getD j [])] else [])
      ([.preformatted (joinSep (strToL "\n") codeLines) .customCode,
        .spacer 1 12], j + 1)
  else if quoteOpen.isPrefixOf line then
    if quoteClose.isSuffixOf line then
      ([.paragraph (cleanHtmlTags line) .customQuote, .spacer 1 12], i + 1)
    else
      let r := scanQuoteList (lines.drop (i + 1))
      let j := i + 1 + r.2
      let quoteLines := cleanHtmlTags line :: r.1 ++
        (if j < lines.length then [cleanHtmlTags (lines.getD j [])] else [])
      ([.paragraph (joinSep (strToL " ") quoteLines) .customQuote,
        .spacer 1 12], j + 1)
  else if tableOpen.isPrefixOf line then
    let r := scanTableList (lines.drop (i + 1))
    let j := i + 1 + r.2
    ((if r.1.isEmpty then [] else [.table r.1, .spacer 1 12]), j + 1)
  else if (strToL "<p>").isPrefixOf line then
    let text := cleanHtmlTags line
    (if (pyStrip text).isEmpty then [] else
      [.paragraph text .normal, .spacer 1 6], i + 1)
  else if (strToL "<li>").isPrefixOf line then
    ([.paragraph (bulletPrefix ++ cleanHtmlTags line) .normal,
      .spacer 1 3], i + 1)
  else
    let text := cleanHtmlTags line
    (if (pyStrip text).isEmpty then [] else
      [.paragraph text .normal, .spacer 1 6], i + 1)

/-- A natural number below both branches of an `if` is below the `if`. -/
theorem lt_ite_nat {c : Prop} [Decidable c] {i a b : Nat}
    (ha : i < a) (hb : i < b) : i < if c then a else b := by
  split <;> assumption

set_option maxHeartbeats 1000000 in
/-- Every iteration of the outer loop strictly advances the line index:
each branch ends in `i += 1`, and the multi-line captures only move the
index forward before that. -/
theorem stepAt_next_gt (lines : List Line) (i : Nat) :
    i < (stepAt lines i).2 := by
  unfold stepAt
  dsimp only
  simp only [apply_ite (Prod.snd (α := List Element) (β := Nat))]
  repeat' apply lt_ite_nat
  all_goals omega

/-- The outer classification loop of `parse_markdown_to_elements`,
starting at line index `i`. -/
def transduce (lines : List Line) (i : Nat) : List Element :=
  if h : i < lines.length then
    (stepAt lines i).1 ++ transduce lines (stepAt lines i).2
  else []
termination_by lines.length - i
decreasing_by
  have := stepAt_next_gt lines i
  omega

theorem transduce_eq (lines : List Line) (i : Nat) :
    transduce lines i =
      if i < lines.length then
        (stepAt lines i).1 ++ transduce lines (stepAt lines i).2
      else [] := by
  rw [transduce]
  split <;> rfl

/-- The element stream `parse_markdown_to_elements` produces from an HTML
string.  The Markdown-to-HTML conversion that precedes this in the source
is delegated to the external `markdown2` library and is not part of this
repository; this function takes that conversion's output. -/
def parse_markdown_to_elements (html : Line) : List Element :=
  transduce (splitLines html) 0

/-- Two prefixes of the same list are comparable, so if neither of `p`, `q`
is a prefix of the other, a list with prefix `q` cannot have prefix `p`. -/
theorem prefix_excl (p q l : Line) (hq : q.isPrefixOf l = true)
    (h1 : p.isPrefixOf q = false) (h2 : q.isPrefixOf p = false) :
    p.isPrefixOf l = false := by
  cases hpl : p.isPrefixOf l with
  | false => rfl
  | true =>
    exfalso
    have hp' := isPrefixOf_true_iff.mp hpl
    have hq' := isPrefixOf_true_iff.mp hq
    rcases List.prefix_or_prefix_of_prefix hp' hq' with h | h
    · rw [← isPrefixOf_true_iff] at h; rw [h] at h1; cases h1
    · rw [← isPrefixOf_true_iff] at h; rw [h] at h2; cases h2

/-- A list with a nonempty prefix is nonempty. -/
theorem isEmpty_false_of_prefix (q l : Line) (hq : q.isPrefixOf l = true)
    (hne : q ≠ []) : l.isEmpty = false := by
  cases l with
  | nil =>
    cases q with
    | nil => exact absurd rfl hne
    | cons c cs => simp [List.isPrefixOf] at hq
  | cons c cs => rfl

theorem getD_drop (l : List Line) (n m : Nat) :
    (l.drop n).getD m [] = l.getD (n + m) [] := by
  induction n generalizing l with
  | zero => simp
  | succ k ih =>
    cases l with
    | nil => simp
    | cons x xs =>
      simp only [List.drop_succ_cons]
      rw [ih]
      simp [Nat.succ_add]

/-- Characterization of the code-block capture loop: it consumes exactly
the longest prefix of lines whose stripped form does not end with the
closing marker, collects those lines raw, and stops at the first closing
line (or the end of the stream). -/
theorem scanCodeList_spec (ls : List Line) :
    (scanCodeList ls).2 ≤ ls.length ∧
    (scanCodeList ls).1 = ls.take (scanCodeList ls).2 ∧
    (∀ m, m < (scanCodeList ls).2 →
      codeClose.isSuffixOf (pyStrip (ls.getD m [])) = false) ∧
    ((scanCodeList ls).2 < ls.length →
      codeClose.isSuffixOf (pyStrip (ls.getD (scanCodeList ls).2 [])) = true) := by
  induction ls with
  | nil => exact ⟨Nat.le_refl _, rfl, fun m hm => absurd hm (by simp [scanCodeList]), fun h => absurd h (by simp [scanCodeList])⟩
  | cons l ls ih =>
    by_cases hc : codeClose.isSuffixOf (pyStrip l) = true
    · refine ⟨?_, ?_, ?_, ?_⟩ <;> simp [scanCodeList, hc]
    · rw [Bool.not_eq_true] at hc
      obtain ⟨ih1, ih2, ih3, ih4⟩ := ih
      have hs : scanCodeList (l :: ls) = (l :: (scanCodeList ls).1, (scanCodeList ls).2 + 1) := by
        simp [scanCodeList, hc]
      refine ⟨?_, ?_, ?_, ?_⟩
      · rw [hs]; simp only [List.length_cons]; omega
      · rw [hs]; simp only [List.take_succ_cons]; rw [ih2]
      · intro m hm
        rw [hs] at hm
        dsimp only at hm
        cases m with
        | zero => simpa using hc
        | succ k =>
          simp only [List.getD_cons_succ]
          exact ih3 k (by simpa using hm)
      · intro hlt
        rw [hs] at hlt ⊢
        simp only [List.length_cons] at hlt
        simp only [List.getD_cons_succ]
        exact ih4 (by omega)

/-- Characterization of the blockquote capture loop: same shape as the
code-block loop, but the collected lines are tag-stripped. -/
theorem scanQuoteList_spec (ls : List Line) :
    (scanQuoteList ls).2 ≤ ls.length ∧
    (scanQuoteList ls).1 = (ls.take (scanQuoteList ls).2).map cleanHtmlTags ∧
    (∀ m, m < (scanQuoteList ls).2 →
      quoteClose.isSuffixOf (pyStrip (ls.getD m [])) = false) ∧
    ((scanQuoteList ls).2 < ls.length →
      quoteClose.isSuffixOf (pyStrip (ls.getD (scanQuoteList ls).2 [])) = true) := by
  induction ls with
  | nil => exact ⟨Nat.le_refl _, rfl, fun m hm => absurd hm (by simp [scanQuoteList]), fun h => absurd h (by simp [scanQuoteList])⟩
  | cons l ls ih =>
    by_cases hc : quoteClose.isSuffixOf (pyStrip l) = true
    · refine ⟨?_, ?_, ?_, ?_⟩ <;> simp [scanQuoteList, hc]
    · rw [Bool.not_eq_true] at hc
      obtain ⟨ih1, ih2, ih3, ih4⟩ := ih
      have hs : scanQuoteList (l :: ls) = (cleanHtmlTags l :: (scanQuoteList ls).1, (scanQuoteList ls).2 + 1) := by
        simp [scanQuoteList, hc]
      refine ⟨?_, ?_, ?_, ?_⟩
      · rw [hs]; simp only [List.length_cons]; omega
      · rw [hs]; simp only [List.take_succ_cons, List.map_cons]; rw [ih2]
      · intro m hm
        rw [hs] at hm
        dsimp only at hm
        cases m with
        | zero => simpa using hc
        | succ k =>
          simp only [List.getD_cons_succ]
          exact ih3 k (by simpa using hm)
      · intro hlt
        rw [hs] at hlt ⊢
        simp only [List.length_cons] at hlt
        simp only [List.getD_cons_succ]
        exact ih4 (by omega)

/-- The per-line contribution to a table: a row of cleaned cell texts when
the stripped line is a `<tr>` row with at least one extracted cell,
nothing otherwise. -/
def rowFn (l : Line) : Option (List Line) :=
  if trOpen.isPrefixOf (pyStrip l) then
    if (rowCells (pyStrip l)).isEmpty then none else some (rowCells (pyStrip l))
  else none

/-- Characterization of the table-row collection loop: it consumes exactly
the lines before the first `</table>` line (or the whole stream) and
collects, in order, the nonempty rows extracted from `<tr>` lines. -/
theorem scanTableList_spec (ls : List Line) :
    (scanTableList ls).2 ≤ ls.length ∧
    (scanTableList ls).1 = (ls.take (scanTableList ls).2).filterMap rowFn ∧
    (∀ m, m < (scanTableList ls).2 →
      tableClose.isPrefixOf (pyStrip (ls.getD m [])) = false) ∧
    ((scanTableList ls).2 < ls.length →
      tableClose.isPrefixOf (pyStrip (ls.getD (scanTableList ls).2 [])) = true) := by
  induction ls with
  | nil => exact ⟨Nat.le_refl _, rfl, fun m hm => absurd hm (by simp [scanTableList]), fun h => absurd h (by simp [scanTableList])⟩
  | cons l ls ih =>
    by_cases hc : tableClose.isPrefixOf (pyStrip l) = true
    · refine ⟨?_, ?_, ?_, ?_⟩ <;> simp [scanTableList, hc]
    · rw [Bool.not_eq_true] at hc
      obtain ⟨ih1, ih2, ih3, ih4⟩ := ih
      have hs : scanTableList (l :: ls) =
          ((if trOpen.isPrefixOf (pyStrip l) then
              if (rowCells (pyStrip l)).isEmpty then (scanTableList ls).1
              else rowCells (pyStrip l) :: (scanTableList ls).1
            else (scanTableList ls).1), (scanTableList ls).2 + 1) := by
        simp only [scanTableList, hc, Bool.false_eq_true, if_false]
      refine ⟨?_, ?_, ?_, ?_⟩
      · rw [hs]; simp only [List.length_cons]; omega
      · rw [hs]
        dsimp only
        simp only [List.take_succ_cons, List.filterMap_cons]
        by_cases h1 : trOpen.isPrefixOf (pyStrip l) = true
        · by_cases h2 : (rowCells (pyStrip l)).isEmpty = true
          · simp [rowFn, h1, h2, ih2]
          · simp [rowFn, h1, h2, ih2]
        · simp [rowFn, h1, ih2]
      · intro m hm
        rw [hs] at hm
        dsimp only at hm
        cases m with
        | zero => simpa using hc
        | succ k =>
          simp only [List.getD_cons_succ]
          exact ih3 k (by simpa using hm)
      · intro hlt
        rw [hs] at hlt ⊢
        simp only [List.length_cons] at hlt
        simp only [List.getD_cons_succ]
        exact ih4 (by omega)

/-- The heading spacer sizes hard-coded in the six heading branches:
`Spacer(1, 12)`, `(1, 10)`, `(1, 8)`, `(1, 6)`, `(1, 4)`, `(1, 4)`. -/
def hSpacerSize : Nat → Nat
  | 1 => 12
  | 2 => 10
  | 3 => 8
  | 4 => 6
  | 5 => 4
  | 6 => 4
  | _ => 0

/-- Branch extraction for a heading line: when the stripped current line
starts with `<hk>` (1 ≤ k ≤ 6), the step emits the tag-stripped line as a
heading paragraph of that level followed by the level's spacer, and
advances the index by one. -/
theorem stepAt_heading (lines : List Line) (i lvl : Nat)
    (h1 : 1 ≤ lvl) (h6 : lvl ≤ 6)
    (hp : (hTag lvl).isPrefixOf (pyStrip (lines.getD i [])) = true) :
    stepAt lines i =
      ([Element.paragraph (cleanHtmlTags (pyStrip (lines.getD i [])))
          (Style.heading lvl), Element.spacer 1 (hSpacerSize lvl)], i + 1) := by
  have hne : (pyStrip (lines.getD i [])).isEmpty = false :=
    isEmpty_false_of_prefix _ _ hp (by interval_cases lvl <;> decide)
  interval_cases lvl
  · unfold stepAt
    simp_all [hSpacerSize]
  · have e1 : (hTag 1).isPrefixOf (pyStrip (lines.getD i [])) = false :=
      prefix_excl _ _ _ hp (by decide) (by decide)
    unfold stepAt
    simp_all [hSpacerSize]
  · have e1 : (hTag 1).isPrefixOf (pyStrip (lines.getD i [])) = false :=
      prefix_excl _ _ _ hp (by decide) (by decide)
    have e2 : (hTag 2).isPrefixOf (pyStrip (lines.getD i [])) = false :=
      prefix_excl _ _ _ hp (by decide) (by decide)
    unfold stepAt
    simp_all [hSpacerSize]
  · have e1 : (hTag 1).isPrefixOf (pyStrip (lines.getD i [])) = false :=
      prefix_excl _ _ _ hp (by decide) (by decide)
    have e2 : (hTag 2).isPrefixOf (pyStrip (lines.getD i [])) = false :=
      prefix_excl _ _ _ hp (by decide) (by decide)
    have e3 : (hTag 3).isPrefixOf (pyStrip (lines.getD i [])) = false :=
      prefix_excl _ _ _ hp (by decide) (by decide)
    unfold stepAt
    simp_all [hSpacerSize]
  · have e1 : (hTag 1).isPrefixOf (pyStrip (lines.getD i [])) = false :=
      prefix_excl _ _ _ hp (by decide) (by decide)
    have e2 : (hTag 2).isPrefixOf (pyStrip (lines.getD i [])) = false :=
      prefix_excl _ _ _ hp (by decide) (by decide)
    have e3 : (hTag 3).isPrefixOf (pyStrip (lines.getD i [])) = false :=
      prefix_excl _ _ _ hp (by decide) (by decide)
    have e4 : (hTag 4).isPrefixOf (pyStrip (lines.getD i [])) = false :=
      prefix_excl _ _ _ hp (by decide) (by decide)
    unfold stepAt
    simp_all [hSpacerSize]
  · have e1 : (hTag 1).isPrefixOf (pyStrip (lines.getD i [])) = false :=
      prefix_excl _ _ _ hp (by decide) (by decide)
    have e2 : (hTag 2).isPrefixOf (pyStrip (lines.getD i [])) = false :=
      prefix_excl _ _ _ hp (by decide) (by decide)
    have e3 : (hTag 3).isPrefixOf (pyStrip (lines.getD i [])) = false :=
      prefix_excl _ _ _ hp (by decide) (by decide)
    have e4 : (hTag 4).isPrefixOf (pyStrip (lines.getD i [])) = false :=
      prefix_excl _ _ _ hp (by decide) (by decide)
    have e5 : (hTag 5).isPrefixOf (pyStrip (lines.getD i [])) = false :=
      prefix_excl _ _ _ hp (by decide) (by decide)
    unfold stepAt
    simp_all [hSpacerSize]

/-- Branch extraction for a multi-line code block: when the stripped
current line starts with `<pre><code>` but does not end with
`</code></pre>`, the step emits one `Preformatted` whose text joins, with
newlines, the tag-stripped opening line, the raw captured lines, and (when
the stream did not end first) the tag-stripped closing line; a spacer
follows, and the index jumps past the closing line. -/
theorem stepAt_code_multiline (lines : List Line) (i : Nat)
    (hp : codeOpen.isPrefixOf (pyStrip (lines.getD i [])) = true)
    (hs : codeClose.isSuffixOf (pyStrip (lines.getD i [])) = false) :
    stepAt lines i =
      ([Element.preformatted
          (joinSep (strToL "\n")
            (cleanHtmlTags (pyStrip (lines.getD i [])) ::
              (scanCodeList (lines.drop (i + 1))).1 ++
                (if i + 1 + (scanCodeList (lines.drop (i + 1))).2 < lines.length then
                  [cleanHtmlTags
                    (lines.getD (i + 1 + (scanCodeList (lines.drop (i + 1))).2) [])]
                 else [])))
          Style.customCode,
        Element.spacer 1 12], i + 1 + (scanCodeList (lines.drop (i + 1))).2 + 1) := by
  have hne : (pyStrip (lines.getD i [])).isEmpty = false :=
    isEmpty_false_of_prefix _ _ hp (by decide)
  have e1 : (hTag 1).isPrefixOf (pyStrip (lines.getD i [])) = false :=
    prefix_excl _ _ _ hp (by decide) (by decide)
  have e2 : (hTag 2).isPrefixOf (pyStrip (lines.getD i [])) = false :=
    prefix_excl _ _ _ hp (by decide) (by decide)
  have e3 : (hTag 3).isPrefixOf (pyStrip (lines.getD i [])) = false :=
    prefix_excl _ _ _ hp (by decide) (by decide)
  have e4 : (hTag 4).isPrefixOf (pyStrip (lines.getD i [])) = false :=
    prefix_excl _ _ _ hp (by decide) (by decide)
  have e5 : (hTag 5).isPrefixOf (pyStrip (lines.getD i [])) = false :=
    prefix_excl _ _ _ hp (by decide) (by decide)
  have e6 : (hTag 6).isPrefixOf (pyStrip (lines.getD i [])) = false :=
    prefix_excl _ _ _ hp (by decide) (by decide)
  unfold stepAt
  simp_all

/-- Branch extraction for a multi-line blockquote: symmetric to the code
block, except every captured line is tag-stripped and the join separator
is a single space; the emitted element is a `CustomQuote` paragraph. -/
theorem stepAt_quote_multiline (lines : List Line) (i : Nat)
    (hp : quoteOpen.isPrefixOf (pyStrip (lines.getD i [])) = true)
    (hs : quoteClose.isSuffixOf (pyStrip (lines.getD i [])) = false) :
    stepAt lines i =
      ([Element.paragraph
          (joinSep (strToL " ")
            (cleanHtmlTags (pyStrip (lines.getD i [])) ::
              (scanQuoteList (lines.drop (i + 1))).1 ++
                (if i + 1 + (scanQuoteList (lines.drop (i + 1))).2 < lines.length then
                  [cleanHtmlTags
                    (lines.getD (i + 1 + (scanQuoteList (lines.drop (i + 1))).2) [])]
                 else [])))
          Style.customQuote,
        Element.spacer 1 12], i + 1 + (scanQuoteList (lines.drop (i + 1))).2 + 1) := by
  have hne : (pyStrip (lines.getD i [])).isEmpty = false :=
    isEmpty_false_of_prefix _ _ hp (by decide)
  have e1 : (hTag 1).isPrefixOf (pyStrip (lines.getD i [])) = false :=
    prefix_excl _ _ _ hp (by decide) (by decide)
  have e2 : (hTag 2).isPrefixOf (pyStrip (lines.getD i [])) = false :=
    prefix_excl _ _ _ hp (by decide) (by decide)
  have e3 : (hTag 3).isPrefixOf (pyStrip (lines.getD i [])) = false :=
    prefix_excl _ _ _ hp (by decide) (by decide)
  have e4 : (hTag 4).isPrefixOf (pyStrip (lines.getD i [])) = false :=
    prefix_excl _ _ _ hp (by decide) (by decide)
  have e5 : (hTag 5).isPrefixOf (pyStrip (lines.getD i [])) = false :=
    prefix_excl _ _ _ hp (by decide) (by decide)
  have e6 : (hTag 6).isPrefixOf (pyStrip (lines.getD i [])) = false :=
    prefix_excl _ _ _ hp (by decide) (by decide)
  have ec : codeOpen.isPrefixOf (pyStrip (lines.getD i [])) = false :=
    prefix_excl _ _ _ hp (by decide) (by decide)
  unfold stepAt
  simp_all

/-- Branch extraction for a table: when the stripped current line starts
with `<table>`, the step collects the rows before the `</table>` line and
emits one `Table` followed by a spacer exactly when at least one row was
collected, then jumps past the closing line. -/
theorem stepAt_table (lines : List Line) (i : Nat)
    (hp : tableOpen.isPrefixOf (pyStrip (lines.getD i [])) = true) :
    stepAt lines i =
      ((if (scanTableList (lines.drop (i + 1))).1.isEmpty then []
        else [Element.table (scanTableList (lines.drop (i + 1))).1,
              Element.spacer 1 12]),
       i + 1 + (scanTableList (lines.drop (i + 1))).2 + 1) := by
  have hne : (pyStrip (lines.getD i [])).isEmpty = false :=
    isEmpty_false_of_prefix _ _ hp (by decide)
  have e1 : (hTag 1).isPrefixOf (pyStrip (lines.getD i [])) = false :=
    prefix_excl _ _ _ hp (by decide) (by decide)
  have e2 : (hTag 2).isPrefixOf (pyStrip (lines.getD i [])) = false :=
    prefix_excl _ _ _ hp (by decide) (by decide)
  have e3 : (hTag 3).isPrefixOf (pyStrip (lines.getD i [])) = false :=
    prefix_excl _ _ _ hp (by decide) (by decide)
  have e4 : (hTag 4).isPrefixOf (pyStrip (lines.getD i [])) = false :=
    prefix_excl _ _ _ hp (by decide) (by decide)
  have e5 : (hTag 5).isPrefixOf (pyStrip (lines.getD i [])) = false :=
    prefix_excl _ _ _ hp (by decide) (by decide)
  have e6 : (hTag 6).isPrefixOf (pyStrip (lines.getD i [])) = false :=
    prefix_excl _ _ _ hp (by decide) (by decide)
  have ec : codeOpen.isPrefixOf (pyStrip (lines.getD i [])) = false :=
    prefix_excl _ _ _ hp (by decide) (by decide)
  have eq' : quoteOpen.isPrefixOf (pyStrip (lines.getD i [])) = false :=
    prefix_excl _ _ _ hp (by decide) (by decide)
  unfold stepAt
  simp_all

/-- C9: the classification/transduction loop terminates on every finite
HTML line sequence because the line index strictly increases on every
iteration of the outer loop, including through the multi-line code, quote
and table capture branches; hence the loop performs at most one outer
iteration per line. -/
theorem C9_index_advances (lines : List Line) (i : Nat)
    (hi : i < lines.length) : i < (stepAt lines i).2 :=
  stepAt_next_gt lines i

theorem C9_index_advances_witness :
    0 < (stepAt [strToL "<p>a</p>"] 0).2 :=
  C9_index_advances [strToL "<p>a</p>"] 0 (by decide)

/-- The shape of one step's output: nothing, or one non-spacer content
element followed by one spacer. -/
def chunkShape (l : List Element) : Prop :=
  l = [] ∨ ∃ e w h, isSpacer e = false ∧ l = [e, Element.spacer w h]

theorem chunkShape_ite {c : Prop} [Decidable c] {a b : List Element}
    (ha : chunkShape a) (hb : chunkShape b) : chunkShape (if c then a else b) := by
  split <;> assumption

set_option maxHeartbeats 1000000 in
theorem stepAt_shape (lines : List Line) (i : Nat) :
    chunkShape (stepAt lines i).1 := by
  unfold stepAt
  dsimp only
  simp only [apply_ite (Prod.fst (α := List Element) (β := Nat))]
  repeat' apply chunkShape_ite
  all_goals first
    | exact Or.inl rfl
    | (refine Or.inr ⟨_, _, _, ?_, rfl⟩; rfl)

/-- No adjacent pair consists of a spacer preceded by another spacer. -/
def noBadPair : List Element → Bool
  | a :: b :: rest => (!(isSpacer b) || !(isSpacer a)) && noBadPair (b :: rest)
  | _ => true

/-- Every spacer in the list is immediately preceded by a non-spacer
element: the list does not begin with a spacer and contains no two
consecutive spacers. -/
def spacersOk : List Element → Bool
  | [] => true
  | e :: rest => !(isSpacer e) && noBadPair (e :: rest)

theorem isSpacer_spacer (w h : Nat) : isSpacer (Element.spacer w h) = true := rfl

theorem spacersOk_append_chunk {c : List Element} (hc : chunkShape c)
    {rest : List Element} (hr : spacersOk rest = true) :
    spacersOk (c ++ rest) = true := by
  rcases hc with rfl | ⟨e, w, h, he, rfl⟩
  · simpa using hr
  · cases rest with
    | nil => simp [spacersOk, noBadPair, he, isSpacer_spacer]
    | cons r rs =>
      unfold spacersOk at hr
      simp only [Bool.and_eq_true] at hr
      simp [spacersOk, noBadPair, he, isSpacer_spacer, hr.1, hr.2]

theorem transduce_spacersOk_aux :
    ∀ fuel lines i, lines.length - i ≤ fuel →
      spacersOk (transduce lines i) = true := by
  intro fuel
  induction fuel with
  | zero =>
    intro lines i h
    rw [transduce_eq]
    have : ¬ i < lines.length := by omega
    simp [this, spacersOk]
  | succ n ih =>
    intro lines i h
    rw [transduce_eq]
    by_cases hi : i < lines.length
    · simp only [hi, if_true]
      apply spacersOk_append_chunk (stepAt_shape lines i)
      apply ih
      have := stepAt_next_gt lines i
      omega
    · simp [hi, spacersOk]

/-- C10: in every element sequence produced by the transducer, each
vertical spacer is immediately preceded by a non-spacer content element;
in particular the output never begins with a spacer and never contains two
consecutive spacers. -/
theorem C10_spacers_preceded (lines : List Line) (i : Nat) (html : Line) :
    spacersOk (transduce lines i) = true ∧
    spacersOk (parse_markdown_to_elements html) = true :=
  ⟨transduce_spacersOk_aux (lines.length - i) lines i (Nat.le_refl _),
   transduce_spacersOk_aux ((splitLines html).length) (splitLines html) 0
     (by omega)⟩

/-- C2 counterexample: the claim asserts strictly decreasing spacer sizes
across heading levels, but levels 5 and 6 both get a spacer of height 4:
on the concrete lines `<h5>a</h5>` and `<h6>a</h6>` the transducer emits
equal spacers, and `4 < 4` is false. -/
theorem C2_counterexample :
    stepAt [strToL "<h5>a</h5>"] 0 =
      ([Element.paragraph (strToL "a") (Style.heading 5), Element.spacer 1 4], 1) ∧
    stepAt [strToL "<h6>a</h6>"] 0 =
      ([Element.paragraph (strToL "a") (Style.heading 6), Element.spacer 1 4], 1) ∧
    ¬ (4 < 4) := by decide

/-- C2 (amended): a line starting with an `<hk>` tag makes the transducer
emit a Heading at level `k` followed by the level's spacer; the spacer
sizes are non-increasing with heading depth and level 1's is the largest,
but levels 5 and 6 share the same size, so the decrease is not strict. -/
theorem C2_heading_spacer (lines : List Line) (i lvl : Nat)
    (h1 : 1 ≤ lvl) (h6 : lvl ≤ 6)
    (hp : (hTag lvl).isPrefixOf (pyStrip (lines.getD i [])) = true) :
    stepAt lines i =
      ([Element.paragraph (cleanHtmlTags (pyStrip (lines.getD i [])))
          (Style.heading lvl), Element.spacer 1 (hSpacerSize lvl)], i + 1) ∧
    hSpacerSize 6 ≤ hSpacerSize 5 ∧ hSpacerSize 5 ≤ hSpacerSize 4 ∧
    hSpacerSize 4 ≤ hSpacerSize 3 ∧ hSpacerSize 3 ≤ hSpacerSize 2 ∧
    hSpacerSize 2 < hSpacerSize 1 :=
  ⟨stepAt_heading lines i lvl h1 h6 hp, by decide, by decide, by decide,
   by decide, by decide⟩

theorem C2_heading_spacer_witness :
    stepAt [strToL "<h3>T</h3>"] 0 =
      ([Element.paragraph (cleanHtmlTags (pyStrip ([strToL "<h3>T</h3>"].getD 0 [])))
          (Style.heading 3), Element.spacer 1 (hSpacerSize 3)], 1) ∧
    hSpacerSize 6 ≤ hSpacerSize 5 ∧ hSpacerSize 5 ≤ hSpacerSize 4 ∧
    hSpacerSize 4 ≤ hSpacerSize 3 ∧ hSpacerSize 3 ≤ hSpacerSize 2 ∧
    hSpacerSize 2 < hSpacerSize 1 :=
  C2_heading_spacer [strToL "<h3>T</h3>"] 0 3 (by decide) (by decide) (by decide)

/-- The multi-line code-block behaviour at opening line `i`, with `j` the
index of the closing line (or the length of the stream when no closing
marker exists): every line strictly between `i` and `j` lacks the closing
marker, line `j` (when present) is the first whose stripped form ends with
it, and the step emits exactly one code block — the tag-stripped opening
line, then the intermediate lines raw, then the tag-stripped closing line
when present, joined with newlines — followed by one spacer, resuming
after line `j`. -/
def codeBlockCaptureAt (lines : List Line) (i j : Nat) : Prop :=
  i < j ∧ j ≤ lines.length ∧
  (∀ m, i < m → m < j →
    codeClose.isSuffixOf (pyStrip (lines.getD m [])) = false) ∧
  (j < lines.length →
    codeClose.isSuffixOf (pyStrip (lines.getD j [])) = true) ∧
  stepAt lines i =
    ([Element.preformatted
        (joinSep (strToL "\n")
          (cleanHtmlTags (pyStrip (lines.getD i [])) ::
            ((lines.drop (i + 1)).take (j - (i + 1)) ++
              (if j < lines.length then [cleanHtmlTags (lines.getD j [])]
               else []))))
        Style.customCode,
      Element.spacer 1 12], j + 1)

/-- C1: a line whose stripped form starts with `<pre><code>` but does not
end with `</code></pre>` starts a multi-line capture that emits exactly
one code block built from the tag-stripped opening line, the subsequent
raw lines, and the tag-stripped first closing line, joined with newlines;
when the stream ends before a closing marker, the captured content is
still emitted and no error is raised (the step is total and `j` is the
stream length). -/
theorem C1_code_block_capture (lines : List Line) (i : Nat)
    (hi : i < lines.length)
    (hp : codeOpen.isPrefixOf (pyStrip (lines.getD i [])) = true)
    (hs : codeClose.isSuffixOf (pyStrip (lines.getD i [])) = false) :
    ∃ j, codeBlockCaptureAt lines i j := by
  obtain ⟨s1, s2, s3, s4⟩ := scanCodeList_spec (lines.drop (i + 1))
  refine ⟨i + 1 + (scanCodeList (lines.drop (i + 1))).2, ?_, ?_, ?_, ?_, ?_⟩
  · omega
  · have := List.length_drop (i + 1) lines
    omega
  · intro m hm1 hm2
    have hm : m - (i + 1) < (scanCodeList (lines.drop (i + 1))).2 := by omega
    have := s3 (m - (i + 1)) hm
    rwa [getD_drop, Nat.add_sub_cancel' (by omega : i + 1 ≤ m)] at this
  · intro hj
    have hlt : (scanCodeList (lines.drop (i + 1))).2 < (lines.drop (i + 1)).length := by
      rw [List.length_drop]
      omega
    have := s4 hlt
    rwa [getD_drop] at this
  · rw [stepAt_code_multiline lines i hp hs]
    rw [Nat.add_sub_cancel_left (n := i + 1)]
    rw [← s2]
    simp [List.cons_append]

theorem C1_code_block_capture_witness :
    ∃ j, codeBlockCaptureAt [strToL "<pre><code>print(1)", strToL "tail"] 0 j :=
  C1_code_block_capture [strToL "<pre><code>print(1)", strToL "tail"] 0
    (by decide) (by decide) (by decide)

/-- The multi-line blockquote behaviour at opening line `i`: symmetric to
`codeBlockCaptureAt`, except every captured line (opening, intermediate
and closing) is tag-stripped and the captured lines are joined with single
spaces, emitted as one quote-styled paragraph. -/
def quoteBlockCaptureAt (lines : List Line) (i j : Nat) : Prop :=
  i < j ∧ j ≤ lines.length ∧
  (∀ m, i < m → m < j →
    quoteClose.isSuffixOf (pyStrip (lines.getD m [])) = false) ∧
  (j < lines.length →
    quoteClose.isSuffixOf (pyStrip (lines.getD j [])) = true) ∧
  stepAt lines i =
    ([Element.paragraph
        (joinSep (strToL " ")
          (cleanHtmlTags (pyStrip (lines.getD i [])) ::
            (((lines.drop (i + 1)).take (j - (i + 1))).map cleanHtmlTags ++
              (if j < lines.length then [cleanHtmlTags (lines.getD j [])]
               else []))))
        Style.customQuote,
      Element.spacer 1 12], j + 1)

/-- C5: a line whose stripped form starts with `<blockquote>` but does not
end with `</blockquote>` starts a capture symmetric to the code-block one,
except that every captured line is tag-stripped and the lines are joined
with a single space (not a newline) before one quote block is emitted. -/
theorem C5_quote_block_capture (lines : List Line) (i : Nat)
    (hi : i < lines.length)
    (hp : quoteOpen.isPrefixOf (pyStrip (lines.getD i [])) = true)
    (hs : quoteClose.isSuffixOf (pyStrip (lines.getD i [])) = false) :
    ∃ j, quoteBlockCaptureAt lines i j := by
  obtain ⟨s1, s2, s3, s4⟩ := scanQuoteList_spec (lines.drop (i + 1))
  refine ⟨i + 1 + (scanQuoteList (lines.drop (i + 1))).2, ?_, ?_, ?_, ?_, ?_⟩
  · omega
  · have := List.length_drop (i + 1) lines
    omega
  · intro m hm1 hm2
    have hm : m - (i + 1) < (scanQuoteList (lines.drop (i + 1))).2 := by omega
    have := s3 (m - (i + 1)) hm
    rwa [getD_drop, Nat.add_sub_cancel' (by omega : i + 1 ≤ m)] at this
  · intro hj
    have hlt : (scanQuoteList (lines.drop (i + 1))).2 < (lines.drop (i + 1)).length := by
      rw [List.length_drop]
      omega
    have := s4 hlt
    rwa [getD_drop] at this
  · rw [stepAt_quote_multiline lines i hp hs]
    rw [Nat.add_sub_cancel_left (n := i + 1)]
    rw [← s2]
    simp [List.cons_append]

theorem C5_quote_block_capture_witness :
    ∃ j, quoteBlockCaptureAt
      [strToL "<blockquote>to be", strToL "or not", strToL "to be</blockquote>"] 0 j :=
  C5_quote_block_capture
    [strToL "<blockquote>to be", strToL "or not", strToL "to be</blockquote>"] 0
    (by decide) (by decide) (by decide)

/-- The table behaviour at opening line `i`, with `j` the index of the
`</table>` line (or the stream length): the collected rows are exactly the
nonempty cell lists extracted from the `<tr>` lines strictly between `i`
and `j`, and a table plus spacer is emitted iff at least one row was
collected. -/
def tableCaptureAt (lines : List Line) (i j : Nat) : Prop :=
  i < j ∧ j ≤ lines.length ∧
  (∀ m, i < m → m < j →
    tableClose.isPrefixOf (pyStrip (lines.getD m [])) = false) ∧
  (j < lines.length →
    tableClose.isPrefixOf (pyStrip (lines.getD j [])) = true) ∧
  stepAt lines i =
    ((if (((lines.drop (i + 1)).take (j - (i + 1))).filterMap rowFn).isEmpty
      then []
      else [Element.table
              (((lines.drop (i + 1)).take (j - (i + 1))).filterMap rowFn),
            Element.spacer 1 12]), j + 1)

/-- C6: inside a table, a row is appended only for lines starting with
`<tr>` that yield at least one extracted cell (rows with zero cells are
dropped), and after the closing marker (or stream end) a Table element
followed by a spacer is emitted iff at least one row was collected — an
empty table emits nothing. -/
theorem C6_table_rows (lines : List Line) (i : Nat)
    (hi : i < lines.length)
    (hp : tableOpen.isPrefixOf (pyStrip (lines.getD i [])) = true) :
    ∃ j, tableCaptureAt lines i j := by
  obtain ⟨s1, s2, s3, s4⟩ := scanTableList_spec (lines.drop (i + 1))
  refine ⟨i + 1 + (scanTableList (lines.drop (i + 1))).2, ?_, ?_, ?_, ?_, ?_⟩
  · omega
  · have := List.length_drop (i + 1) lines
    omega
  · intro m hm1 hm2
    have hm : m - (i + 1) < (scanTableList (lines.drop (i + 1))).2 := by omega
    have := s3 (m - (i + 1)) hm
    rwa [getD_drop, Nat.add_sub_cancel' (by omega : i + 1 ≤ m)] at this
  · intro hj
    have hlt : (scanTableList (lines.drop (i + 1))).2 < (lines.drop (i + 1)).length := by
      rw [List.length_drop]
      omega
    have := s4 hlt
    rwa [getD_drop] at this
  · rw [stepAt_table lines i hp]
    rw [Nat.add_sub_cancel_left (n := i + 1)]
    rw [← s2]

theorem C6_table_rows_witness :
    ∃ j, tableCaptureAt
      [strToL "<table>", strToL "<tr><th>h</th><td>d</td></tr>",
       strToL "<tr></tr>", strToL "</table>"] 0 j :=
  C6_table_rows
    [strToL "<table>", strToL "<tr><th>h</th><td>d</td></tr>",
     strToL "<tr></tr>", strToL "</table>"] 0
    (by decide) (by decide)

/-- One command-line input file, abstracting the filesystem facts the
batch loop consults (`os.path.exists`, the `.md`/`.markdown` extension
check) and the outcome of `convert_markdown_to_pdf` on it. -/
structure InputFile where
  pathExists : Bool
  hasMarkdownExt : Bool
  convertSucceeds : Bool
deriving DecidableEq, Repr

/-- The observable outcome of one `main` run: the process exit code, the
`X/Y` pair of the final summary line when it is printed, and how many
conversion attempts were made. -/
structure MainResult where
  exitCode : Nat
  summary : Option (Nat × Nat)
  convertCalls : Nat
deriving DecidableEq, Repr

namespace PipelineA

/-- The per-file batch loop of `main` in `src/md_to_pdf_converter.py`:
skip files that do not exist or lack a Markdown extension, otherwise
attempt a conversion and count successes.  Returns
(`success_count`, number of conversion attempts). -/
def batchLoop : List InputFile → Nat × Nat
  | [] => (0, 0)
  | f :: fs =>
    if !f.pathExists then batchLoop fs
    else if !f.hasMarkdownExt then batchLoop fs
    else
      let r := batchLoop fs
      ((if f.convertSucceeds then 1 else 0) + r.1, 1 + r.2)

/-- The `main` of `src/md_to_pdf_converter.py`: reject `--output` with more
than one input file (exit 1 before any conversion), otherwise run the
batch loop, print the summary `success_count/total_count` with
`total_count = len(args.input_files)`, and exit 1 iff no file succeeded. -/
def main (files : List InputFile) (outputGiven : Bool) : MainResult :=
  if files.length > 1 && outputGiven then
    { exitCode := 1, summary := none, convertCalls := 0 }
  else
    let r := batchLoop files
    { exitCode := if r.1 = 0 then 1 else 0,
      summary := some (r.1, files.length),
      convertCalls := r.2 }

end PipelineA

namespace PipelineB

/-- The per-file batch loop of `main` in
`src/md_to_pdf_converter_windows.py` (same structure as Pipeline A's). -/
def batchLoop : List InputFile → Nat × Nat
  | [] => (0, 0)
  | f :: fs =>
    if !f.pathExists then batchLoop fs
    else if !f.hasMarkdownExt then batchLoop fs
    else
      let r := batchLoop fs
      ((if f.convertSucceeds then 1 else 0) + r.1, 1 + r.2)

/-- The `main` of `src/md_to_pdf_converter_windows.py` (same structure as
Pipeline A's `main`). -/
def main (files : List InputFile) (outputGiven : Bool) : MainResult :=
  if files.length > 1 && outputGiven then
    { exitCode := 1, summary := none, convertCalls := 0 }
  else
    let r := batchLoop files
    { exitCode := if r.1 = 0 then 1 else 0,
      summary := some (r.1, files.length),
      convertCalls := r.2 }

end PipelineB

theorem batchLoop_eq (files : List InputFile) :
    PipelineA.batchLoop files = PipelineB.batchLoop files := by
  induction files with
  | nil => rfl
  | cons f fs ih =>
    unfold PipelineA.batchLoop PipelineB.batchLoop
    rw [ih]

theorem main_eq (files : List InputFile) (o : Bool) :
    PipelineA.main files o = PipelineB.main files o := by
  unfold PipelineA.main PipelineB.main
  rw [batchLoop_eq]

/-- C4 counterexample: the claim asserts that, for some batch containing a
pre-check-skipped file, the two pipelines print different denominators in
the final summary line; in fact the two `main` functions compute identical
summaries on every input, so no such batch exists. -/
theorem C4_counterexample :
    ¬ ∃ (files : List InputFile) (o : Bool),
        (∃ f ∈ files, ¬(f.pathExists = true ∧ f.hasMarkdownExt = true)) ∧
        (PipelineA.main files o).summary.map Prod.snd ≠
          (PipelineB.main files o).summary.map Prod.snd := by
  rintro ⟨files, o, -, hne⟩
  exact hne (by rw [main_eq])

/-- C4 (amended): the two pipelines do not differ on the summary
denominator: both `main` functions produce identical results, and whenever
the summary line is printed its denominator `Y` is the full count of
input arguments, so files skipped by the extension/existence pre-check
count toward the denominator in both pipelines. -/
theorem C4_same_denominator (files : List InputFile) (o : Bool) :
    PipelineA.main files o = PipelineB.main files o ∧
    (PipelineA.main files o).summary =
      (if files.length > 1 && o then none
       else some ((PipelineA.batchLoop files).1, files.length)) := by
  refine ⟨main_eq files o, ?_⟩
  unfold PipelineA.main
  split <;> rfl

/-- C7: with more than one input file and the output flag set, both
drivers exit with code 1 immediately: no summary is printed and no
conversion is attempted, so no PDF is produced for any input. -/
theorem C7_output_conflict (files : List InputFile) (o : Bool)
    (hlen : 1 < files.length) (ho : o = true) :
    PipelineA.main files o =
      { exitCode := 1, summary := none, convertCalls := 0 } ∧
    PipelineB.main files o =
      { exitCode := 1, summary := none, convertCalls := 0 } := by
  have hc : (files.length > 1 && o) = true := by
    rw [ho]
    simp only [Bool.and_true, decide_eq_true_eq]
    exact hlen
  constructor
  · unfold PipelineA.main
    rw [if_pos hc]
  · unfold PipelineB.main
    rw [if_pos hc]

theorem C7_output_conflict_witness :
    PipelineA.main [⟨true, true, true⟩, ⟨true, true, true⟩] true =
      { exitCode := 1, summary := none, convertCalls := 0 } ∧
    PipelineB.main [⟨true, true, true⟩, ⟨true, true, true⟩] true =
      { exitCode := 1, summary := none, convertCalls := 0 } :=
  C7_output_conflict [⟨true, true, true⟩, ⟨true, true, true⟩] true
    (by decide) (by decide)

theorem batchLoopA_pos_iff (files : List InputFile) :
    0 < (PipelineA.batchLoop files).1 ↔
      ∃ f ∈ files, f.pathExists = true ∧ f.hasMarkdownExt = true ∧
        f.convertSucceeds = true := by
  induction files with
  | nil => simp [PipelineA.batchLoop]
  | cons f fs ih =>
    by_cases he : f.pathExists = true
    · by_cases hm : f.hasMarkdownExt = true
      · by_cases hc : f.convertSucceeds = true
        · simp [PipelineA.batchLoop, he, hm, hc]
        · simp only [PipelineA.batchLoop, he, hm, hc, Bool.not_true,
            Bool.false_eq_true, if_false, if_neg]
          simp only [Bool.not_eq_true] at hc
          simp [hc, ih]
      · simp only [Bool.not_eq_true] at hm
        simp [PipelineA.batchLoop, he, hm, ih]
    · simp only [Bool.not_eq_true] at he
      simp [PipelineA.batchLoop, he, ih]

/-- C8: past the output-flag check, both drivers exit with code 0 iff at
least one input file converts successfully (exists on disk, has a
Markdown extension, and the conversion succeeds), and with code 1 iff no
file succeeds — including when every input is skipped by the pre-check. -/
theorem C8_exit_codes (files : List InputFile) (o : Bool)
    (h : ¬(1 < files.length ∧ o = true)) :
    ((PipelineA.main files o).exitCode = 0 ↔
      ∃ f ∈ files, f.pathExists = true ∧ f.hasMarkdownExt = true ∧
        f.convertSucceeds = true) ∧
    ((PipelineA.main files o).exitCode = 1 ↔
      ¬ ∃ f ∈ files, f.pathExists = true ∧ f.hasMarkdownExt = true ∧
        f.convertSucceeds = true) ∧
    ((PipelineB.main files o).exitCode = 0 ↔
      ∃ f ∈ files, f.pathExists = true ∧ f.hasMarkdownExt = true ∧
        f.convertSucceeds = true) ∧
    ((PipelineB.main files o).exitCode = 1 ↔
      ¬ ∃ f ∈ files, f.pathExists = true ∧ f.hasMarkdownExt = true ∧
        f.convertSucceeds = true) := by
  have hc : (files.length > 1 && o) = false := by
    cases ho : o
    · simp
    · simp only [Bool.and_true, decide_eq_false_iff_not]
      intro hlen
      exact h ⟨hlen, ho⟩
  rw [← main_eq files o]
  unfold PipelineA.main
  rw [if_neg (by simp [hc])]
  dsimp only
  constructor
  · rw [← batchLoopA_pos_iff]
    constructor
    · intro h0
      by_contra hpos
      simp only [Nat.not_lt, Nat.le_zero] at hpos
      rw [hpos] at h0
      simp at h0
    · intro hpos
      rw [if_neg (by omega)]
  · constructor
    · rw [← batchLoopA_pos_iff]
      constructor
      · intro h1
        intro hpos
        rw [if_neg (by omega)] at h1
        simp at h1
      · intro hnpos
        rw [if_pos (by omega)]
    · constructor
      · rw [← batchLoopA_pos_iff]
        constructor
        · intro h0
          by_contra hpos
          simp only [Nat.not_lt, Nat.le_zero] at hpos
          rw [hpos] at h0
          simp at h0
        · intro hpos
          rw [if_neg (by omega)]
      · rw [← batchLoopA_pos_iff]
        constructor
        · intro h1
          intro hpos
          rw [if_neg (by omega)] at h1
          simp at h1
        · intro hnpos
          rw [if_pos (by omega)]

theorem C8_exit_codes_witness :
    ((PipelineA.main [⟨true, true, true⟩] false).exitCode = 0 ↔
      ∃ f ∈ [(⟨true, true, true⟩ : InputFile)], f.pathExists = true ∧
        f.hasMarkdownExt = true ∧ f.convertSucceeds = true) ∧
    ((PipelineA.main [⟨true, true, true⟩] false).exitCode = 1 ↔
      ¬ ∃ f ∈ [(⟨true, true, true⟩ : InputFile)], f.pathExists = true ∧
        f.hasMarkdownExt = true ∧ f.convertSucceeds = true) ∧
    ((PipelineB.main [⟨true, true, true⟩] false).exitCode = 0 ↔
      ∃ f ∈ [(⟨true, true, true⟩ : InputFile)], f.pathExists = true ∧
        f.hasMarkdownExt = true ∧ f.convertSucceeds = true) ∧
    ((PipelineB.main [⟨true, true, true⟩] false).exitCode = 1 ↔
      ¬ ∃ f ∈ [(⟨true, true, true⟩ : InputFile)], f.pathExists = true ∧
        f.hasMarkdownExt = true ∧ f.convertSucceeds = true) :=
  C8_exit_codes [⟨true, true, true⟩] false (by simp)

theorem dropWhile_append_right (p : Char → Bool) (A B : Line)
    (hB : B.dropWhile p = B) : (A ++ B).dropWhile p = A.dropWhile p ++ B := by
  induction A with
  | nil => simpa using hB
  | cons a as ih =>
    by_cases hp : p a = true
    · simp [List.dropWhile_cons, hp, ih]
    · rw [Bool.not_eq_true] at hp
      simp [List.dropWhile_cons, hp]

theorem dropWhile_eq_self_append (p : Char → Bool) (A B : Line)
    (hne : A ≠ []) (hA : A.dropWhile p = A) : (A ++ B).dropWhile p = A ++ B := by
  cases A with
  | nil => exact absurd rfl hne
  | cons a as =>
    have hpa : p a = false := by
      by_contra hp
      rw [Bool.not_eq_false] at hp
      rw [List.dropWhile_cons_of_pos hp] at hA
      have hlen := congrArg List.length hA
      have hle := (List.dropWhile_sublist (l := as) p).length_le
      simp only [List.length_cons] at hlen
      omega
    simp [List.dropWhile_cons, hpa]

/-- Stripping a string that begins with a whitespace-free marker keeps the
marker intact and only strips trailing whitespace from the remainder. -/
theorem pyStrip_marker_append (p x : Line)
    (hne : p ≠ []) (h2 : p.dropWhile isSpaceChar = p)
    (h3 : p.reverse.dropWhile isSpaceChar = p.reverse) :
    pyStrip (p ++ x) = p ++ (x.reverse.dropWhile isSpaceChar).reverse := by
  unfold pyStrip
  rw [dropWhile_eq_self_append _ _ _ hne h2]
  rw [List.reverse_append]
  rw [dropWhile_append_right _ _ _ h3]
  rw [List.reverse_append, List.reverse_reverse]

/-- Stripping a string that ends with a whitespace-free marker keeps the
marker intact and only strips leading whitespace from the front part. -/
theorem pyStrip_append_marker (x p : Line)
    (hne : p ≠ []) (h2 : p.dropWhile isSpaceChar = p)
    (h3 : p.reverse.dropWhile isSpaceChar = p.reverse) :
    pyStrip (x ++ p) = x.dropWhile isSpaceChar ++ p := by
  unfold pyStrip
  rw [dropWhile_append_right _ _ _ h2]
  rw [List.reverse_append]
  rw [dropWhile_eq_self_append _ _ _ (by simp [hne]) h3]
  rw [List.reverse_append, List.reverse_reverse, List.reverse_reverse]

theorem codeOpen_prefix_pyStrip (x : Line) :
    codeOpen.isPrefixOf (pyStrip (codeOpen ++ x)) = true := by
  rw [pyStrip_marker_append codeOpen x (by decide) (by decide) (by decide)]
  rw [isPrefixOf_true_iff]
  exact List.prefix_append _ _

theorem codeClose_suffix_pyStrip (x : Line) :
    codeClose.isSuffixOf (pyStrip (x ++ codeClose)) = true := by
  rw [pyStrip_append_marker x codeClose (by decide) (by decide) (by decide)]
  rw [List.isSuffixOf_iff_suffix]
  exact List.suffix_append _ _

theorem mem_pyStrip {l : Line} {x : Char} (hx : x ∈ pyStrip l) : x ∈ l := by
  unfold pyStrip at hx
  rw [List.mem_reverse] at hx
  have h1 := List.dropWhile_subset (l := (l.dropWhile isSpaceChar).reverse) isSpaceChar hx
  rw [List.mem_reverse] at h1
  exact List.dropWhile_subset isSpaceChar h1

theorem mem_cleanAux : ∀ (l : Line) (b : Option Line) (x : Char),
    x ∈ cleanAux l b → x ∈ l ∨ ∃ buf, b = some buf ∧ x ∈ buf := by
  intro l
  induction l with
  | nil =>
    intro b x hx
    cases b with
    | none => simp [cleanAux] at hx
    | some buf =>
      right
      refine ⟨buf, rfl, ?_⟩
      simpa [cleanAux] using hx
  | cons c cs ih =>
    intro b x hx
    cases b with
    | none =>
      by_cases hc : c = '<'
      · subst hc
        simp only [cleanAux, if_pos rfl] at hx
        rcases ih (some ['<']) x hx with h | ⟨buf, hb, hbuf⟩
        · exact Or.inl (List.mem_cons_of_mem _ h)
        · cases hb
          simp only [List.mem_singleton] at hbuf
          exact Or.inl (hbuf ▸ List.mem_cons_self _ _)
      · simp only [cleanAux, if_neg hc, List.mem_cons] at hx
        rcases hx with rfl | hx
        · exact Or.inl (List.mem_cons_self _ _)
        · rcases ih none x hx with h | ⟨buf, hb, _⟩
          · exact Or.inl (List.mem_cons_of_mem _ h)
          · cases hb
    | some buf =>
      by_cases hgt : c = '>'
      · subst hgt
        simp only [cleanAux, if_pos rfl] at hx
        rcases ih none x hx with h | ⟨buf2, hb, _⟩
        · exact Or.inl (List.mem_cons_of_mem _ h)
        · cases hb
      · by_cases hnl : c = '\n'
        · subst hnl
          have hcl : cleanAux ('\n' :: cs) (some buf) =
              buf.reverse ++ '\n' :: cleanAux cs none := by
            simp [cleanAux, hgt]
          rw [hcl, List.mem_append, List.mem_reverse, List.mem_cons] at hx
          rcases hx with hbuf | rfl | hx
          · exact Or.inr ⟨buf, rfl, hbuf⟩
          · exact Or.inl (List.mem_cons_self _ _)
          · rcases ih none x hx with h | ⟨buf2, hb, _⟩
            · exact Or.inl (List.mem_cons_of_mem _ h)
            · cases hb
        · simp only [cleanAux, if_neg hgt, if_neg hnl] at hx
          rcases ih (some (c :: buf)) x hx with h | ⟨buf2, hb, hbuf⟩
          · exact Or.inl (List.mem_cons_of_mem _ h)
          · injection hb with hb
            subst hb
            simp only [List.mem_cons] at hbuf
            rcases hbuf with rfl | hbuf
            · exact Or.inl (List.mem_cons_self _ _)
            · exact Or.inr ⟨buf, rfl, hbuf⟩

theorem mem_cleanHtmlTags {l : Line} {x : Char}
    (hx : x ∈ cleanHtmlTags l) : x ∈ l := by
  rcases mem_cleanAux l none x hx with h | ⟨buf, hb, _⟩
  · exact h
  · cases hb

theorem splitLines_no_newline (a : Line) (ha : '\n' ∉ a) :
    splitLines a = [a] := by
  induction a with
  | nil => rfl
  | cons c cs ih =>
    have hc : ¬ c = '\n' := fun h => ha (h ▸ List.mem_cons_self _ _)
    have hcs : '\n' ∉ cs := fun h => ha (List.mem_cons_of_mem _ h)
    rw [splitLines, if_neg hc, ih hcs]

theorem splitLines_append_newline (a rest : Line) (ha : '\n' ∉ a) :
    splitLines (a ++ '\n' :: rest) = a :: splitLines rest := by
  induction a with
  | nil => simp [splitLines]
  | cons c cs ih =>
    have hc : ¬ c = '\n' := fun h => ha (h ▸ List.mem_cons_self _ _)
    have hcs : '\n' ∉ cs := fun h => ha (List.mem_cons_of_mem _ h)
    rw [List.cons_append, splitLines, if_neg hc, ih hcs]

/-- Modelled from the spec: the Markdown-to-HTML conversion preceding the
transducer is delegated to the external `markdown2` library (not part of
this repository).  Per the spec's contract and glossary, a fenced code
block's content lines are preserved verbatim, including internal line
breaks, wrapped in the `<pre><code>` / `</code></pre>` markers. -/
def fencedCodeBlockHtml (contents : List Line) : Line :=
  codeOpen ++ joinSep (strToL "\n") contents ++ codeClose

/-- C3: for a fenced code block of three content lines (rendered to HTML
per the spec's external-conversion contract), the transducer emits exactly
one code block followed by its spacer, and the code block's text, split on
the newline character, is exactly the three lines in their original
order.  The hypotheses say the content lines are newline-free (they come
from a line split) and that neither the opening line nor the second line
carries the closing marker. -/
theorem C3_fenced_three_lines (c1 c2 c3 : Line)
    (h1 : '\n' ∉ c1) (h2 : '\n' ∉ c2) (h3 : '\n' ∉ c3)
    (hc1 : codeClose.isSuffixOf (pyStrip (codeOpen ++ c1)) = false)
    (hc2 : codeClose.isSuffixOf (pyStrip c2) = false) :
    parse_markdown_to_elements (fencedCodeBlockHtml [c1, c2, c3]) =
      [Element.preformatted
        (joinSep (strToL "\n")
          [cleanHtmlTags (pyStrip (codeOpen ++ c1)), c2,
           cleanHtmlTags (c3 ++ codeClose)]) Style.customCode,
       Element.spacer 1 12] ∧
    splitLines (joinSep (strToL "\n")
        [cleanHtmlTags (pyStrip (codeOpen ++ c1)), c2,
         cleanHtmlTags (c3 ++ codeClose)]) =
      [cleanHtmlTags (pyStrip (codeOpen ++ c1)), c2,
       cleanHtmlTags (c3 ++ codeClose)] := by
  have hnlO : '\n' ∉ codeOpen := by decide
  have hnlC : '\n' ∉ codeClose := by decide
  have h1' : '\n' ∉ codeOpen ++ c1 := by
    rw [List.mem_append]
    rintro (h | h)
    exacts [hnlO h, h1 h]
  have h3' : '\n' ∉ c3 ++ codeClose := by
    rw [List.mem_append]
    rintro (h | h)
    exacts [h3 h, hnlC h]
  have hnl : strToL "\n" = ['\n'] := rfl
  have hjoin : fencedCodeBlockHtml [c1, c2, c3] =
      (codeOpen ++ c1) ++ '\n' :: (c2 ++ '\n' :: (c3 ++ codeClose)) := by
    unfold fencedCodeBlockHtml
    show codeOpen ++ (c1 ++ strToL "\n" ++ (c2 ++ strToL "\n" ++ c3)) ++ codeClose = _
    rw [hnl]
    simp [List.append_assoc]
  have hsplit : splitLines (fencedCodeBlockHtml [c1, c2, c3]) =
      [codeOpen ++ c1, c2, c3 ++ codeClose] := by
    rw [hjoin, splitLines_append_newline _ _ h1', splitLines_append_newline _ _ h2,
        splitLines_no_newline _ h3']
  have hp : codeOpen.isPrefixOf
      (pyStrip (([codeOpen ++ c1, c2, c3 ++ codeClose] : List Line).getD 0 [])) = true :=
    codeOpen_prefix_pyStrip c1
  have hs0 : codeClose.isSuffixOf
      (pyStrip (([codeOpen ++ c1, c2, c3 ++ codeClose] : List Line).getD 0 [])) = false := hc1
  have hstep := stepAt_code_multiline [codeOpen ++ c1, c2, c3 ++ codeClose] 0 hp hs0
  have hscan : scanCodeList [c2, c3 ++ codeClose] = ([c2], 1) := by
    have hx : codeClose.isSuffixOf (pyStrip (c3 ++ codeClose)) = true :=
      codeClose_suffix_pyStrip c3
    simp [scanCodeList, hc2, hx]
  have hdrop : List.drop (0 + 1) [codeOpen ++ c1, c2, c3 ++ codeClose] = [c2, c3 ++ codeClose] := rfl
  rw [hdrop, hscan] at hstep
  constructor
  · unfold parse_markdown_to_elements
    rw [hsplit, transduce_eq, if_pos (by simp)]
    rw [hstep]
    rw [transduce_eq]
    norm_num
  · have hA : '\n' ∉ cleanHtmlTags (pyStrip (codeOpen ++ c1)) :=
      fun hx => h1' (mem_pyStrip (mem_cleanHtmlTags hx))
    have hB : '\n' ∉ cleanHtmlTags (c3 ++ codeClose) :=
      fun hx => h3' (mem_cleanHtmlTags hx)
    have hjoin2 : joinSep (strToL "\n")
        [cleanHtmlTags (pyStrip (codeOpen ++ c1)), c2, cleanHtmlTags (c3 ++ codeClose)] =
        cleanHtmlTags (pyStrip (codeOpen ++ c1)) ++
          '\n' :: (c2 ++ '\n' :: cleanHtmlTags (c3 ++ codeClose)) := by
      show cleanHtmlTags (pyStrip (codeOpen ++ c1)) ++ strToL "\n" ++
          (c2 ++ strToL "\n" ++ cleanHtmlTags (c3 ++ codeClose)) = _
      rw [hnl]
      simp [List.append_assoc]
    rw [hjoin2, splitLines_append_newline _ _ hA, splitLines_append_newline _ _ h2,
        splitLines_no_newline _ hB]

theorem C3_fenced_three_lines_witness :
    (parse_markdown_to_elements
        (fencedCodeBlockHtml [strToL "a", strToL "b", strToL "c"]) =
      [Element.preformatted
        (joinSep (strToL "\n")
          [cleanHtmlTags (pyStrip (codeOpen ++ strToL "a")), strToL "b",
           cleanHtmlTags (strToL "c" ++ codeClose)]) Style.customCode,
       Element.spacer 1 12]) ∧
    splitLines (joinSep (strToL "\n")
        [cleanHtmlTags (pyStrip (codeOpen ++ strToL "a")), strToL "b",
         cleanHtmlTags (strToL "c" ++ codeClose)]) =
      [cleanHtmlTags (pyStrip (codeOpen ++ strToL "a")), strToL "b",
       cleanHtmlTags (strToL "c" ++ codeClose)] :=
  C3_fenced_three_lines (strToL "a") (strToL "b") (strToL "c")
    (by decide) (by decide) (by decide) (by decide) (by decide)
